import Mathlib

/-!
Verification of the image-preprocessing core of the repository
(`image_preprocessing_gemini.py`): the `ImagePreprocessor` class
(`resize_image`, `add_bounding_boxes`, `preprocess_dataset`) and the
`create_sample_annotations` sampler, shallowly embedded in Lean.

Filesystem and PIL effects are abstracted into explicit environments:
opening an image either yields its pixel dimensions or an error string,
saving either succeeds or fails, and the random source of the sampler is
an explicit stream of naturals.  All arithmetic is exact (Nat / Int),
matching Python's arbitrary-precision integers.
-/

namespace ImageAgent

/-- A raster image, abstracted to its pixel dimensions (PIL `Image.size`). -/
structure Image where
  width : Nat
  height : Nat
  deriving DecidableEq

/-- The dictionaries returned by the preprocessor:
`{"status": "success", ...metadata}` or `{"status": "error", "error": msg}`. -/
inductive OpResult (α : Type) where
  | success : α → OpResult α
  | error : String → OpResult α
  deriving DecidableEq

def OpResult.isSuccess {α : Type} : OpResult α → Bool
  | .success _ => true
  | .error _ => false

def OpResult.isError {α : Type} : OpResult α → Bool
  | .success _ => false
  | .error _ => true

/-! ### PIL `Image.thumbnail`

`img.thumbnail(size)` (Pillow): if the image already fits inside `size`
it is left unchanged; otherwise the dimension pair is scaled to preserve
aspect ratio, rounding the adjusted axis to whichever of floor/ceil is
closer to the true aspect ratio (floor on ties), clamped below by 1.
Python computes the keys with exact ratios; we clear denominators. -/

/-- Rounding of the width axis: the scaled width is `th * w / h` exactly,
and the candidate `n ∈ {floor, ceil}` minimising `|w/h - n/th|`
(equivalently `|w*th - n*h|`) is kept, floor winning ties. -/
def round_aspect_w (w h th : Nat) : Nat :=
  let f := th * w / h
  let c := (th * w + h - 1) / h
  let keyF := ((w * th : Int) - f * h).natAbs
  let keyC := ((w * th : Int) - c * h).natAbs
  max (if keyF ≤ keyC then f else c) 1

/-- Rounding of the height axis: the scaled height is `tw * h / w` exactly,
and the key of candidate `n` is `0` if `n = 0`, else `|w/h - tw/n|`
(equivalently `|w*n - tw*h| / n`, compared by cross-multiplication). -/
def round_aspect_h (w h tw : Nat) : Nat :=
  let f := tw * h / w
  let c := (tw * h + w - 1) / w
  let keyF := if f = 0 then 0 else ((w * f : Int) - tw * h).natAbs * c
  let keyC := if f = 0 then 1 else ((w * c : Int) - tw * h).natAbs * f
  max (if keyF ≤ keyC then f else c) 1

/-- The size `img.thumbnail((tw, th))` scales a `w × h` image to. -/
def thumbnailSize (w h tw th : Nat) : Nat × Nat :=
  if w ≤ tw ∧ h ≤ th then (w, h)
  else if th * w ≤ tw * h then (round_aspect_w w h th, th)
  else (tw, round_aspect_h w h tw)

/-! ### `ImagePreprocessor.resize_image` -/

/-- The metadata of a successful resize:
`{"original_size": ..., "new_size": ..., "output_path": ...}`. -/
structure ResizeSuccess where
  original_size : Nat × Nat
  new_size : Nat × Nat
  deriving DecidableEq

/-- The I/O environment of one `resize_image` call: the outcome of
`Image.open(image_path)` and of `img.save(output_path)`. -/
structure ResizeEnv where
  openResult : Except String Image
  saveResult : Image → Except String Unit

/-- Observable outcome of `resize_image`: the returned dict, the image
written to `output_path` (if any), and — on the aspect-preserving path —
the scaled thumbnail together with the paste offsets handed to
`new_img.paste(img, (paste_x, paste_y))`. -/
structure ResizeTrace where
  result : OpResult ResizeSuccess
  written : Option Image
  pasted : Option (Image × Int × Int)

/-- `ImagePreprocessor.resize_image`, target size `(tw, th)`.
`paste_x = (tw - scaled_w) // 2` is Python floor division; the divisor is
positive, so Euclidean division (Lean's `/` on `Int`) coincides with it. -/
def resize_image (env : ResizeEnv) (tw th : Nat) (maintain_aspect : Bool) : ResizeTrace :=
  match env.openResult with
  | .error e => ⟨.error e, none, none⟩
  | .ok img =>
    if maintain_aspect then
      let s := thumbnailSize img.width img.height tw th
      let thumb : Image := ⟨s.1, s.2⟩
      let newImg : Image := ⟨tw, th⟩
      let paste_x : Int := ((tw : Int) - thumb.width) / 2
      let paste_y : Int := ((th : Int) - thumb.height) / 2
      match env.saveResult newImg with
      | .error e => ⟨.error e, none, some (thumb, paste_x, paste_y)⟩
      | .ok _ =>
        ⟨.success ⟨(img.width, img.height), (newImg.width, newImg.height)⟩,
          some newImg, some (thumb, paste_x, paste_y)⟩
    else
      let newImg : Image := ⟨tw, th⟩
      match env.saveResult newImg with
      | .error e => ⟨.error e, none, none⟩
      | .ok _ =>
        ⟨.success ⟨(img.width, img.height), (tw, th)⟩, some newImg, none⟩

/-! ### `ImagePreprocessor.add_bounding_boxes` -/

/-- A bounding-box dict.  `x`, `y`, `width`, `height` are accessed with
`box[...]` (KeyError when absent, hence `Option`); `label` and `color`
with `box.get(..., default)`. -/
structure Box where
  x? : Option Int
  y? : Option Int
  width? : Option Int
  height? : Option Int
  label? : Option String
  color? : Option String
  deriving DecidableEq

/-- The subscript accesses `box['x'], box['y'], box['width'], box['height']`
in evaluation order; the first missing key raises. -/
def readBox (b : Box) : Except String (Int × Int × Int × Int) :=
  match b.x? with
  | none => .error "KeyError: x"
  | some x =>
    match b.y? with
    | none => .error "KeyError: y"
    | some y =>
      match b.width? with
      | none => .error "KeyError: width"
      | some w =>
        match b.height? with
        | none => .error "KeyError: height"
        | some h => .ok (x, y, w, h)

/-- The drawing loop over `boxes`, in order; drawing itself only mutates
pixels (dimensions unchanged), so the only observable per-box effect is
the possible KeyError. -/
def checkBoxes : List Box → Except String Unit
  | [] => .ok ()
  | b :: rest =>
    match readBox b with
    | .error e => .error e
    | .ok _ => checkBoxes rest

/-- Metadata of a successful annotate call: `{"boxes_added": len(boxes)}`. -/
structure AnnotateSuccess where
  boxes_added : Nat
  deriving DecidableEq

/-- Environment of one `add_bounding_boxes` call.  `fontAvailable` models
whether `ImageFont.truetype` succeeds; on failure the code falls back to
`ImageFont.load_default()`, so the font never contributes an error path. -/
structure AnnotateEnv where
  openResult : Except String Image
  fontAvailable : Bool
  saveResult : Image → Except String Unit

/-- Observable outcome of `add_bounding_boxes`: the returned dict and the
image written to `output_path` (if any — `img.save` runs only after the
whole box loop has finished). -/
structure AnnotateTrace where
  result : OpResult AnnotateSuccess
  written : Option Image

/-- `ImagePreprocessor.add_bounding_boxes`. -/
def add_bounding_boxes (env : AnnotateEnv) (boxes : List Box) : AnnotateTrace :=
  match env.openResult with
  | .error e => ⟨.error e, none⟩
  | .ok img =>
    match checkBoxes boxes with
    | .error e => ⟨.error e, none⟩
    | .ok _ =>
      match env.saveResult img with
      | .error e => ⟨.error e, none⟩
      | .ok _ => ⟨.success ⟨boxes.length⟩, some img⟩

/-! ### `ImagePreprocessor.preprocess_dataset` -/

/-- `image_extensions = {'.jpg', '.jpeg', '.png', '.bmp', '.tiff'}`. -/
def image_extensions : List String := [".jpg", ".jpeg", ".png", ".bmp", ".tiff"]

/-- Python `pathlib.PurePath.suffix`: with `i = name.rfind('.')`, the
suffix is `name[i:]` when `0 < i < len(name) - 1`, else the empty string.
`ext` below is the run of characters after the last dot, so
`i = len - 1 - ext.length`. -/
def pathSuffix (name : String) : String :=
  let cs := name.toList
  let ext := cs.reverse.takeWhile (fun c => c ≠ '.')
  if '.' ∈ cs ∧ 0 < ext.length ∧ ext.length < cs.length - 1 then
    ⟨'.' :: ext.reverse⟩
  else ""

/-- Python `str.lower()`, restricted to its ASCII behavior — the
extensions compared against are all ASCII. -/
def lowerString (s : String) : String := ⟨s.toList.map Char.toLower⟩

/-- `img_file.suffix.lower() in image_extensions`. -/
def eligible (name : String) : Bool :=
  decide (lowerString (pathSuffix name) ∈ image_extensions)

/-- Per-file outcomes of the two transformer calls made by the batch
loop (`self.resize_image` / `self.add_bounding_boxes`), indexed by the
source filename. -/
structure BatchEnv where
  resizeOutcome : String → Except String Unit
  annotateOutcome : String → Except String Unit

/-- `annotations and img_file.name in annotations`: the optional dict is
truthy and holds the exact filename as a key. -/
def hasAnn (ann : Option (List String)) (name : String) : Bool :=
  match ann with
  | none => false
  | some keys => decide (name ∈ keys)

/-- The mutable ledger of `preprocess_dataset` plus the files present in
the output directory: `results = {"processed": [], "failed": [], "total": 0}`
and the effect of `save` / `os.remove` / `rename` on disk. -/
structure BatchState where
  processed : List (String × String)
  failed : List (String × String)
  total : Nat
  disk : List String
  deriving DecidableEq

/-- The body of the batch loop for one eligible file:
`results["total"] += 1`; resize into `resized_<name>`; on resize error
record and continue; if an annotation entry exists, annotate into the
final path and then `os.remove(resized_path)` unconditionally, recording
an annotate error afterwards; otherwise rename the intermediate to the
final path.  On success append `(name, output)` to `processed`. -/
def processFile (env : BatchEnv) (ann : Option (List String)) (st : BatchState)
    (name : String) : BatchState :=
  let st1 : BatchState := { st with total := st.total + 1 }
  match env.resizeOutcome name with
  | .error e => { st1 with failed := st1.failed ++ [(name, e)] }
  | .ok _ =>
    let resized := "resized_" ++ name
    let st2 : BatchState := { st1 with disk := st1.disk ++ [resized] }
    if hasAnn ann name then
      match env.annotateOutcome name with
      | .error e =>
        { st2 with
            disk := st2.disk.erase resized
            failed := st2.failed ++ [(name, e)] }
      | .ok _ =>
        { st2 with
            disk := (st2.disk ++ [name]).erase resized
            processed := st2.processed ++ [(name, name)] }
    else
      { st2 with
          disk := st2.disk.erase resized ++ [name]
          processed := st2.processed ++ [(name, name)] }

/-- One directory entry of the `Path(input_dir).iterdir()` loop: files
whose lowercased suffix is not a supported extension are skipped. -/
def batchStep (env : BatchEnv) (ann : Option (List String)) (st : BatchState)
    (name : String) : BatchState :=
  if eligible name then processFile env ann st name else st

/-- `ImagePreprocessor.preprocess_dataset`, over the directory listing
`files` (filenames as returned by `iterdir`). -/
def preprocess_dataset (env : BatchEnv) (ann : Option (List String))
    (files : List String) : BatchState :=
  files.foldl (batchStep env ann) ⟨[], [], 0, []⟩

/-! ### `create_sample_annotations` -/

def labels : List String := ["object", "target", "item", "entity", "element"]

def colors : List String := ["red", "blue", "green", "yellow", "purple"]

/-- `np.random.randint(lo, hi)`: a uniform draw from `[lo, hi)` when
`lo < hi`, a raised `ValueError: low >= high` otherwise.  The draw is
made explicit through the seed `s`: any value of `[lo, hi)` is
`lo + s % (hi - lo)` for some `s`. -/
def randint (lo hi : Int) (s : Nat) : Except String Int :=
  if lo < hi then .ok (lo + (s : Int) % (hi - lo)) else .error "low >= high"

/-- One generated annotation dict. -/
structure SampleBox where
  x : Int
  y : Int
  width : Int
  height : Int
  label : String
  color : String
  deriving DecidableEq

/-- Loop body for index `i`: four consecutive draws from the stream `g`,
then the cyclic `labels[i % len(labels)]` / `colors[i % len(colors)]`. -/
def sampleBox (g : Nat → Nat) (w h : Int) (i : Nat) : Except String SampleBox :=
  match randint 50 (w - 150) (g (4 * i)) with
  | .error e => .error e
  | .ok bx =>
    match randint 50 (h - 150) (g (4 * i + 1)) with
    | .error e => .error e
    | .ok by_ =>
      match randint 80 150 (g (4 * i + 2)) with
      | .error e => .error e
      | .ok bw =>
        match randint 80 150 (g (4 * i + 3)) with
        | .error e => .error e
        | .ok bh =>
          .ok ⟨bx, by_, bw, bh,
            labels.getD (i % labels.length) "",
            colors.getD (i % colors.length) ""⟩

/-- `for i in range(n): boxes.append(box)`, propagating the first raised
`ValueError`. -/
def sampleBoxes (g : Nat → Nat) (w h : Int) : Nat → Except String (List SampleBox)
  | 0 => .ok []
  | n + 1 =>
    match sampleBoxes g w h n with
    | .error e => .error e
    | .ok bs =>
      match sampleBox g w h n with
      | .error e => .error e
      | .ok b => .ok (bs ++ [b])

/-- `create_sample_annotations(num_boxes, image_width, image_height)`. -/
def create_sample_annotations (g : Nat → Nat) (num_boxes : Nat)
    (image_width image_height : Int) : Except String (List SampleBox) :=
  sampleBoxes g image_width image_height num_boxes

/-! ## Helper lemmas -/

theorem round_aspect_w_le {w h th tw : Nat} (hh : 0 < h) (htw : 0 < tw)
    (hc : th * w ≤ tw * h) : round_aspect_w w h th ≤ tw := by
  unfold round_aspect_w
  have hcl : (th * w + h - 1) / h ≤ tw := by
    have h1 : th * w + h - 1 < (tw + 1) * h := by
      have : (tw + 1) * h = tw * h + h := by ring
      omega
    exact Nat.lt_succ_iff.mp ((Nat.div_lt_iff_lt_mul hh).mpr h1)
  have hf : th * w / h ≤ tw :=
    le_trans (Nat.div_le_div_right (by omega)) hcl
  refine max_le ?_ htw
  split <;> assumption

theorem round_aspect_h_le {w h tw th : Nat} (hw : 0 < w) (hth : 0 < th)
    (hc : tw * h < th * w) : round_aspect_h w h tw ≤ th := by
  unfold round_aspect_h
  have hcl : (tw * h + w - 1) / w ≤ th := by
    have h1 : tw * h + w - 1 < (th + 1) * w := by
      have : (th + 1) * w = th * w + w := by ring
      omega
    exact Nat.lt_succ_iff.mp ((Nat.div_lt_iff_lt_mul hw).mpr h1)
  have hf : tw * h / w ≤ th :=
    le_trans (Nat.div_le_div_right (by omega)) hcl
  refine max_le ?_ hth
  split <;> first
    | assumption
    | (split <;> assumption)

/-- The thumbnail never exceeds the requested bounding size: the scaled
image fits inside the target canvas on both axes. -/
theorem thumbnailSize_le {w h tw th : Nat} (hw : 0 < w) (hh : 0 < h)
    (htw : 0 < tw) (hth : 0 < th) :
    (thumbnailSize w h tw th).1 ≤ tw ∧ (thumbnailSize w h tw th).2 ≤ th := by
  unfold thumbnailSize
  split
  · next hfit => exact ⟨hfit.1, hfit.2⟩
  · split
    · next hb => exact ⟨round_aspect_w_le hh htw hb, le_refl th⟩
    · next hb => exact ⟨le_refl tw, round_aspect_h_le hw hth (by omega)⟩

/-! ## Claims -/

/-- What C1 asserts of one aspect-preserving resize: success, output of
exactly the target dimensions, paste offsets `floor((target - scaled) / 2)`
per axis, and centered letterboxing whose opposite paddings differ by at
most one pixel. -/
def LetterboxSpec (env : ResizeEnv) (tw th : Nat) : Prop :=
  ∃ m sw sh px py,
    (resize_image env tw th true).result = OpResult.success m ∧
    m.new_size = (tw, th) ∧
    (resize_image env tw th true).written = some ⟨tw, th⟩ ∧
    (resize_image env tw th true).pasted = some (⟨sw, sh⟩, px, py) ∧
    px = ((tw : Int) - sw) / 2 ∧
    py = ((th : Int) - sh) / 2 ∧
    0 ≤ px ∧ 0 ≤ py ∧
    px ≤ (tw : Int) - sw - px ∧
    (tw : Int) - sw - px ≤ px + 1 ∧
    py ≤ (th : Int) - sh - py ∧
    (th : Int) - sh - py ≤ py + 1

/-- C1: for every image successfully opened and every (positive) target
size, `resize_image` with `maintain_aspect = true` returns a Success
result whose output image has pixel dimensions exactly equal to the
target size regardless of the input's aspect ratio; the scaled image is
pasted at left/top offsets `floor((target - scaled) / 2)` per axis, so
the paddings on opposite edges differ by at most one pixel. -/
theorem resize_letterboxes (env : ResizeEnv) (tw th : Nat) (img : Image)
    (hopen : env.openResult = Except.ok img)
    (hw : 0 < img.width) (hh : 0 < img.height) (htw : 0 < tw) (hth : 0 < th)
    (hsave : env.saveResult ⟨tw, th⟩ = Except.ok ()) :
    LetterboxSpec env tw th := by
  have hb := thumbnailSize_le hw hh htw hth
  unfold LetterboxSpec resize_image
  rw [hopen]
  simp only [if_pos rfl, hsave]
  refine ⟨_, _, _, _, _, rfl, rfl, rfl, rfl, rfl, rfl, ?_, ?_, ?_, ?_, ?_, ?_⟩ <;>
    omega

/-- Witness for C1 at a concrete 800 × 600 image resized to 640 × 640. -/
theorem resize_letterboxes_witness :
    LetterboxSpec ⟨Except.ok ⟨800, 600⟩, fun _ => Except.ok ()⟩ 640 640 :=
  resize_letterboxes ⟨Except.ok ⟨800, 600⟩, fun _ => Except.ok ()⟩ 640 640
    ⟨800, 600⟩ rfl (by decide) (by decide) (by decide) (by decide) rfl

/-- C3: for every environment (unreadable paths, unsupported formats and
write failures included), `resize_image` and `add_bounding_boxes` return
every outcome as data: exactly one of a Success result or a Failure
result, never both, and an underlying open error surfaces as the
returned failure's error text. -/
theorem transformer_never_raises (re : ResizeEnv) (tw th : Nat) (ma : Bool)
    (ae : AnnotateEnv) (boxes : List Box) :
    ((resize_image re tw th ma).result.isSuccess = true ∨
      ∃ e, (resize_image re tw th ma).result = OpResult.error e) ∧
    ¬((resize_image re tw th ma).result.isSuccess = true ∧
      (resize_image re tw th ma).result.isError = true) ∧
    (∀ e, re.openResult = Except.error e →
      (resize_image re tw th ma).result = OpResult.error e) ∧
    ((add_bounding_boxes ae boxes).result.isSuccess = true ∨
      ∃ e, (add_bounding_boxes ae boxes).result = OpResult.error e) ∧
    ¬((add_bounding_boxes ae boxes).result.isSuccess = true ∧
      (add_bounding_boxes ae boxes).result.isError = true) ∧
    (∀ e, ae.openResult = Except.error e →
      (add_bounding_boxes ae boxes).result = OpResult.error e) := by
  refine ⟨?_, ?_, ?_, ?_, ?_, ?_⟩
  · cases hr : (resize_image re tw th ma).result with
    | success m => exact Or.inl rfl
    | error e => exact Or.inr ⟨e, rfl⟩
  · cases hr : (resize_image re tw th ma).result <;> simp [OpResult.isSuccess, OpResult.isError]
  · intro e he
    unfold resize_image
    rw [he]
  · cases hr : (add_bounding_boxes ae boxes).result with
    | success m => exact Or.inl rfl
    | error e => exact Or.inr ⟨e, rfl⟩
  · cases hr : (add_bounding_boxes ae boxes).result <;> simp [OpResult.isSuccess, OpResult.isError]
  · intro e he
    unfold add_bounding_boxes
    rw [he]

/-- Witness for C3: a concrete unreadable path surfaces as a Failure
result from both operations. -/
theorem transformer_never_raises_witness :
    (resize_image ⟨Except.error "unreadable", fun _ => Except.ok ()⟩ 640 640 true).result =
      OpResult.error "unreadable" ∧
    (add_bounding_boxes ⟨Except.error "unreadable", true, fun _ => Except.ok ()⟩ []).result =
      OpResult.error "unreadable" :=
  ⟨(transformer_never_raises ⟨Except.error "unreadable", fun _ => Except.ok ()⟩ 640 640 true
      ⟨Except.error "unreadable", true, fun _ => Except.ok ()⟩ []).2.2.1 "unreadable" rfl,
   (transformer_never_raises ⟨Except.error "unreadable", fun _ => Except.ok ()⟩ 640 640 true
      ⟨Except.error "unreadable", true, fun _ => Except.ok ()⟩ []).2.2.2.2.2 "unreadable" rfl⟩

/-- C8: annotating a readable image with an empty box list succeeds with
`boxes_added = 0` and writes an output whose pixel dimensions equal the
input image's dimensions. -/
theorem empty_boxes_identity (ae : AnnotateEnv) (img : Image)
    (hopen : ae.openResult = Except.ok img)
    (hsave : ae.saveResult img = Except.ok ()) :
    (add_bounding_boxes ae []).result = OpResult.success ⟨0⟩ ∧
    ∃ out, (add_bounding_boxes ae []).written = some out ∧
      out.width = img.width ∧ out.height = img.height := by
  unfold add_bounding_boxes
  rw [hopen]
  simp only [checkBoxes, hsave]
  exact ⟨rfl, img, rfl, rfl, rfl⟩

/-- Witness for C8 at a concrete 640 × 480 image. -/
theorem empty_boxes_identity_witness :
    (add_bounding_boxes ⟨Except.ok ⟨640, 480⟩, true, fun _ => Except.ok ()⟩ []).result =
      OpResult.success ⟨0⟩ ∧
    ∃ out,
      (add_bounding_boxes ⟨Except.ok ⟨640, 480⟩, true, fun _ => Except.ok ()⟩ []).written =
        some out ∧ out.width = 640 ∧ out.height = 480 :=
  empty_boxes_identity ⟨Except.ok ⟨640, 480⟩, true, fun _ => Except.ok ()⟩ ⟨640, 480⟩ rfl rfl

/-- C9: whenever `add_bounding_boxes` succeeds, the reported
`boxes_added` equals the length of the input box list — the count is
`len(boxes)`, independent of any box's geometry. -/
theorem boxes_added_eq_length (ae : AnnotateEnv) (boxes : List Box)
    (m : AnnotateSuccess)
    (h : (add_bounding_boxes ae boxes).result = OpResult.success m) :
    m.boxes_added = boxes.length := by
  unfold add_bounding_boxes at h
  cases ho : ae.openResult with
  | error e => simp [ho] at h
  | ok img =>
    simp only [ho] at h
    cases hc : checkBoxes boxes with
    | error e => simp [hc] at h
    | ok u =>
      simp only [hc] at h
      cases hs : ae.saveResult img with
      | error e => simp [hs] at h
      | ok u2 =>
        simp only [hs, OpResult.success.injEq] at h
        rw [← h]

/-- Witness for C9: a zero-sized box and a box wholly off-canvas (with a
label at negative y) both count. -/
theorem boxes_added_eq_length_witness :
    ∃ m, (add_bounding_boxes ⟨Except.ok ⟨640, 640⟩, true, fun _ => Except.ok ()⟩
        [⟨some 0, some 0, some 0, some 0, some "object", some "red"⟩,
         ⟨some (-10), some (-20), some 5, some 5, none, none⟩]).result =
      OpResult.success m ∧ m.boxes_added = 2 :=
  ⟨⟨2⟩, rfl,
    boxes_added_eq_length ⟨Except.ok ⟨640, 640⟩, true, fun _ => Except.ok ()⟩
      [⟨some 0, some 0, some 0, some 0, some "object", some "red"⟩,
       ⟨some (-10), some (-20), some 5, some 5, none, none⟩] ⟨2⟩ rfl⟩

/-- A box dict lacking one of the four required keys. -/
def missingRequiredKey (b : Box) : Bool :=
  b.x?.isNone || b.y?.isNone || b.width?.isNone || b.height?.isNone

theorem checkBoxes_error_of_missing {boxes : List Box}
    (h : ∃ b ∈ boxes, missingRequiredKey b = true) :
    ∃ e, checkBoxes boxes = Except.error e := by
  induction boxes with
  | nil => obtain ⟨b, hb, _⟩ := h; exact absurd hb (List.not_mem_nil b)
  | cons b rest ih =>
    unfold checkBoxes
    cases hr : readBox b with
    | error e => exact ⟨e, rfl⟩
    | ok v =>
      apply ih
      obtain ⟨b0, hb0, hmiss⟩ := h
      rcases List.mem_cons.mp hb0 with heq | hmem
      · subst heq
        unfold readBox at hr
        unfold missingRequiredKey at hmiss
        cases hx : b0.x? <;> rw [hx] at hr
        · exact absurd hr (by simp)
        cases hy : b0.y? <;> rw [hy] at hr
        · exact absurd hr (by simp)
        cases hw : b0.width? <;> rw [hw] at hr
        · exact absurd hr (by simp)
        cases hh : b0.height? <;> rw [hh] at hr
        · exact absurd hr (by simp)
        rw [hx, hy, hw, hh] at hmiss
        simp [Option.isNone] at hmiss
      · exact ⟨b0, hmem, hmiss⟩

/-- C10: if any box in the list is missing one of the required keys
`x`, `y`, `width`, `height`, `add_bounding_boxes` returns a Failure
result (never a raised exception) and the destination file is not
written — the image is saved only after the whole box loop, so boxes
drawn before the malformed one leave the destination untouched. -/
theorem malformed_box_no_write (ae : AnnotateEnv) (boxes : List Box) (img : Image)
    (hopen : ae.openResult = Except.ok img)
    (hbad : ∃ b ∈ boxes, missingRequiredKey b = true) :
    (∃ e, (add_bounding_boxes ae boxes).result = OpResult.error e) ∧
    (add_bounding_boxes ae boxes).written = none := by
  obtain ⟨e, he⟩ := checkBoxes_error_of_missing hbad
  unfold add_bounding_boxes
  rw [hopen, he]
  exact ⟨⟨e, rfl⟩, rfl⟩

/-- Witness for C10: a well-formed box followed by a box missing `y`. -/
theorem malformed_box_no_write_witness :
    (∃ e, (add_bounding_boxes ⟨Except.ok ⟨640, 640⟩, true, fun _ => Except.ok ()⟩
        [⟨some 10, some 10, some 50, some 50, some "object", none⟩,
         ⟨some 1, none, some 2, some 3, none, none⟩]).result = OpResult.error e) ∧
    (add_bounding_boxes ⟨Except.ok ⟨640, 640⟩, true, fun _ => Except.ok ()⟩
        [⟨some 10, some 10, some 50, some 50, some "object", none⟩,
         ⟨some 1, none, some 2, some 3, none, none⟩]).written = none :=
  malformed_box_no_write ⟨Except.ok ⟨640, 640⟩, true, fun _ => Except.ok ()⟩
    [⟨some 10, some 10, some 50, some 50, some "object", none⟩,
     ⟨some 1, none, some 2, some 3, none, none⟩] ⟨640, 640⟩ rfl
    ⟨⟨some 1, none, some 2, some 3, none, none⟩, by decide, by decide⟩

/-- Each eligible file is appended to exactly one of `processed` /
`failed`, and `total` is incremented exactly once, before the attempt. -/
theorem processFile_cases (env : BatchEnv) (ann : Option (List String))
    (st : BatchState) (name : String) :
    (processFile env ann st name).total = st.total + 1 ∧
    (((processFile env ann st name).processed = st.processed ++ [(name, name)] ∧
      (processFile env ann st name).failed = st.failed) ∨
     (∃ e, (processFile env ann st name).processed = st.processed ∧
      (processFile env ann st name).failed = st.failed ++ [(name, e)])) := by
  unfold processFile
  cases hr : env.resizeOutcome name with
  | error e => exact ⟨rfl, Or.inr ⟨e, rfl, rfl⟩⟩
  | ok u =>
    cases ha : hasAnn ann name with
    | true =>
      cases hb : env.annotateOutcome name with
      | error e => exact ⟨rfl, Or.inr ⟨e, rfl, rfl⟩⟩
      | ok u2 => exact ⟨rfl, Or.inl ⟨rfl, rfl⟩⟩
    | false => exact ⟨rfl, Or.inl ⟨rfl, rfl⟩⟩

/-- Invariants of the batch loop from an arbitrary starting ledger:
the new `processed` / `failed` entries extend the old ones, their counts
sum to the number of eligible files seen, and their filenames are a
permutation of the eligible filenames. -/
theorem batch_fold_spec (env : BatchEnv) (ann : Option (List String))
    (files : List String) (st : BatchState) :
    ∃ p f,
      (files.foldl (batchStep env ann) st).processed = st.processed ++ p ∧
      (files.foldl (batchStep env ann) st).failed = st.failed ++ f ∧
      (files.foldl (batchStep env ann) st).total =
        st.total + (files.filter (fun n => eligible n)).length ∧
      p.length + f.length = (files.filter (fun n => eligible n)).length ∧
      (p.map Prod.fst ++ f.map Prod.fst).Perm (files.filter (fun n => eligible n)) := by
  induction files generalizing st with
  | nil => exact ⟨[], [], by simp, by simp, by simp, by simp, by simp⟩
  | cons name rest ih =>
    rw [List.foldl_cons]
    by_cases he : eligible name = true
    · have hstep : batchStep env ann st name = processFile env ann st name := by
        unfold batchStep; rw [if_pos he]
      rw [hstep]
      obtain ⟨htot, hcase⟩ := processFile_cases env ann st name
      obtain ⟨p, f, hp, hf, ht, hlen, hperm⟩ := ih (processFile env ann st name)
      have hfc : (name :: rest).filter (fun n => eligible n) =
          name :: rest.filter (fun n => eligible n) := by
        simp [List.filter_cons, he]
      rcases hcase with ⟨hpp, hpf⟩ | ⟨e, hpp, hpf⟩
      · refine ⟨(name, name) :: p, f, ?_, ?_, ?_, ?_, ?_⟩
        · rw [hp, hpp]; simp
        · rw [hf, hpf]
        · rw [ht, htot, hfc]; simp; omega
        · rw [hfc]; simp; omega
        · rw [hfc]
          simpa using List.Perm.cons name hperm
      · refine ⟨p, (name, e) :: f, ?_, ?_, ?_, ?_, ?_⟩
        · rw [hp, hpp]
        · rw [hf, hpf]; simp
        · rw [ht, htot, hfc]; simp; omega
        · rw [hfc]; simp; omega
        · rw [hfc]
          have h1 : p.map Prod.fst ++ ((name, e) :: f).map Prod.fst =
              p.map Prod.fst ++ name :: f.map Prod.fst := by simp
          rw [h1]
          exact List.perm_middle.trans (List.Perm.cons name hperm)
    · have hstep : batchStep env ann st name = st := by
        unfold batchStep
        rw [if_neg he]
      rw [hstep]
      have hfc : (name :: rest).filter (fun n => eligible n) =
          rest.filter (fun n => eligible n) := by
        simp [List.filter_cons, he]
      rw [hfc]
      exact ih st

/-- C2: in a batch run `total` equals the number of eligible files,
`total = |processed| + |failed|`, each eligible file appears in exactly
one of the two lists (their filenames are jointly a permutation of the
eligible listing), and — `total` being incremented before each attempt —
failed files still count, no failure stopping the loop. -/
theorem preprocess_dataset_ledger (env : BatchEnv) (ann : Option (List String))
    (files : List String) :
    (preprocess_dataset env ann files).total =
      (files.filter (fun n => eligible n)).length ∧
    (preprocess_dataset env ann files).total =
      (preprocess_dataset env ann files).processed.length +
        (preprocess_dataset env ann files).failed.length ∧
    ((preprocess_dataset env ann files).processed.map Prod.fst ++
      (preprocess_dataset env ann files).failed.map Prod.fst).Perm
      (files.filter (fun n => eligible n)) := by
  unfold preprocess_dataset
  obtain ⟨p, f, hp, hf, ht, hlen, hperm⟩ :=
    batch_fold_spec env ann files ⟨[], [], 0, []⟩
  rw [hp, hf, ht]
  simpa using ⟨hlen.symm, hperm⟩

/-- C7: a directory entry is counted, attempted and recorded iff its
filename extension, lowercased, is one of exactly
`{.jpg, .jpeg, .png, .bmp, .tiff}`; `.webp` files and files with any
other extension are skipped entirely and contribute to none of `total`,
`processed` or `failed`. -/
theorem eligibility_exact (env : BatchEnv) (ann : Option (List String))
    (files : List String) :
    (preprocess_dataset env ann files).total =
      (files.filter (fun n =>
        decide (lowerString (pathSuffix n) ∈
          [".jpg", ".jpeg", ".png", ".bmp", ".tiff"]))).length ∧
    (∀ nm, nm ∈ (preprocess_dataset env ann files).processed.map Prod.fst →
      eligible nm = true) ∧
    (∀ nm, nm ∈ (preprocess_dataset env ann files).failed.map Prod.fst →
      eligible nm = true) ∧
    (∀ nm, nm ∈ files → eligible nm = true →
      nm ∈ (preprocess_dataset env ann files).processed.map Prod.fst ∨
      nm ∈ (preprocess_dataset env ann files).failed.map Prod.fst) ∧
    eligible "photo.webp" = false ∧
    eligible "photo.JPG" = true ∧
    eligible "notes.txt" = false := by
  unfold preprocess_dataset
  obtain ⟨p, f, hp, hf, ht, hlen, hperm⟩ :=
    batch_fold_spec env ann files ⟨[], [], 0, []⟩
  rw [hp, hf, ht]
  simp only [List.nil_append, Nat.zero_add]
  refine ⟨rfl, ?_, ?_, ?_, by decide, by decide, by decide⟩
  · intro nm hnm
    have : nm ∈ files.filter (fun n => eligible n) :=
      hperm.subset (List.mem_append.mpr (Or.inl hnm))
    exact List.of_mem_filter this
  · intro nm hnm
    have : nm ∈ files.filter (fun n => eligible n) :=
      hperm.subset (List.mem_append.mpr (Or.inr hnm))
    exact List.of_mem_filter this
  · intro nm hmem hel
    have : nm ∈ files.filter (fun n => eligible n) :=
      List.mem_filter.mpr ⟨hmem, hel⟩
    exact List.mem_append.mp (hperm.symm.subset this)

/-- Witness for C7: an eligible file is recorded, at a concrete
directory listing with one `.jpg` and one `.txt` entry. -/
theorem eligibility_exact_witness :
    "a.jpg" ∈ (preprocess_dataset ⟨fun _ => Except.ok (), fun _ => Except.ok ()⟩
        none ["a.jpg", "c.txt"]).processed.map Prod.fst ∨
    "a.jpg" ∈ (preprocess_dataset ⟨fun _ => Except.ok (), fun _ => Except.ok ()⟩
        none ["a.jpg", "c.txt"]).failed.map Prod.fst :=
  (eligibility_exact ⟨fun _ => Except.ok (), fun _ => Except.ok ()⟩
    none ["a.jpg", "c.txt"]).2.2.2.1 "a.jpg" (by decide) (by decide)

/-! ### C4: the fate of the intermediate `resized_<name>` file -/

/-- A batch environment in which every resize succeeds and every
annotate call fails. -/
def annotateFailEnv : BatchEnv :=
  ⟨fun _ => Except.ok (), fun _ => Except.error "annotate failed"⟩

/-- Counterexample to C4: for `a.jpg` (resize succeeds, annotate fails)
the batch loop runs `os.remove(resized_path)` before checking the
annotate outcome, so `resized_a.jpg` is NOT left in place — the output
directory ends empty while the failure is still recorded. -/
theorem intermediate_not_left_on_failure :
    (preprocess_dataset annotateFailEnv (some ["a.jpg"]) ["a.jpg"]).disk = [] ∧
    ¬("resized_a.jpg" ∈
      (preprocess_dataset annotateFailEnv (some ["a.jpg"]) ["a.jpg"]).disk) ∧
    (preprocess_dataset annotateFailEnv (some ["a.jpg"]) ["a.jpg"]).failed =
      [("a.jpg", "annotate failed")] := by
  refine ⟨?_, ?_, ?_⟩ <;> decide

theorem append_ne_self_of_ne_nil {s t : String} (h : s.length ≠ 0) :
    s ++ t ≠ t := by
  intro he
  have : (s ++ t).length = t.length := congrArg String.length he
  rw [String.length_append] at this
  omega

/-- C4 amended: when the annotate step is attempted (resize succeeded
and an annotation entry exists), the intermediate `resized_<name>` file
is deleted unconditionally after the annotate call — on failure as well
as on success — and an annotate failure is still recorded with the loop
continuing (`total` incremented, failure appended). -/
theorem intermediate_always_removed (env : BatchEnv) (ann : Option (List String))
    (st : BatchState) (name : String)
    (hr : env.resizeOutcome name = Except.ok ())
    (ha : hasAnn ann name = true)
    (hd : ("resized_" ++ name) ∉ st.disk) :
    ("resized_" ++ name) ∉ (processFile env ann st name).disk ∧
    (∀ e, env.annotateOutcome name = Except.error e →
      (processFile env ann st name).failed = st.failed ++ [(name, e)] ∧
      (processFile env ann st name).total = st.total + 1) := by
  unfold processFile
  rw [hr, ha]
  cases hb : env.annotateOutcome name with
  | error e =>
    refine ⟨?_, ?_⟩
    · simp only []
      rw [List.erase_append_right _ (by simpa using hd)]
      simpa using hd
    · intro e2 he2
      exact ⟨by simp_all, rfl⟩
  | ok u =>
    refine ⟨?_, ?_⟩
    · simp only []
      rw [List.append_assoc, List.erase_append_right _ (by simpa using hd)]
      have hne : "resized_" ++ name ≠ name :=
        append_ne_self_of_ne_nil (by decide)
      simp [hd, hne]
    · intro e2 he2
      exact absurd he2 (by simp)

/-- Witness for C4's amended theorem at the same concrete run as the
counterexample. -/
theorem intermediate_always_removed_witness :
    ("resized_" ++ "a.jpg") ∉
      (processFile annotateFailEnv (some ["a.jpg"]) ⟨[], [], 0, []⟩ "a.jpg").disk ∧
    (processFile annotateFailEnv (some ["a.jpg"]) ⟨[], [], 0, []⟩ "a.jpg").failed =
      [("a.jpg", "annotate failed")] ∧
    (processFile annotateFailEnv (some ["a.jpg"]) ⟨[], [], 0, []⟩ "a.jpg").total = 1 := by
  have h := intermediate_always_removed annotateFailEnv (some ["a.jpg"])
    ⟨[], [], 0, []⟩ "a.jpg" rfl (by decide) (by simp)
  exact ⟨h.1, (h.2 "annotate failed" rfl).1, (h.2 "annotate failed" rfl).2⟩

/-! ### Sampler lemmas -/

theorem randint_eq_ok (lo hi : Int) (s : Nat) (h : lo < hi) :
    randint lo hi s = Except.ok (lo + (s : Int) % (hi - lo)) := by
  unfold randint
  rw [if_pos h]

theorem randint_ok_bounds {lo hi v : Int} {s : Nat}
    (h : randint lo hi s = Except.ok v) : lo < hi ∧ lo ≤ v ∧ v < hi := by
  unfold randint at h
  by_cases hlt : lo < hi
  · rw [if_pos hlt] at h
    simp only [Except.ok.injEq] at h
    have h0 : 0 ≤ (s : Int) % (hi - lo) := Int.emod_nonneg _ (by omega)
    have h1 : (s : Int) % (hi - lo) < hi - lo := Int.emod_lt_of_pos _ (by omega)
    omega
  · rw [if_neg hlt] at h
    exact absurd h (by simp)

theorem sampleBox_ok_bounds {g : Nat → Nat} {w h : Int} {i : Nat} {b : SampleBox}
    (hok : sampleBox g w h i = Except.ok b) :
    200 < w ∧ 200 < h ∧
    50 ≤ b.x ∧ b.x < w - 150 ∧ 50 ≤ b.y ∧ b.y < h - 150 ∧
    80 ≤ b.width ∧ b.width < 150 ∧ 80 ≤ b.height ∧ b.height < 150 ∧
    b.label = labels.getD (i % 5) "" ∧ b.color = colors.getD (i % 5) "" := by
  unfold sampleBox at hok
  cases h1 : randint 50 (w - 150) (g (4 * i)) with
  | error e => rw [h1] at hok; exact absurd hok (by simp)
  | ok vx =>
    rw [h1] at hok
    cases h2 : randint 50 (h - 150) (g (4 * i + 1)) with
    | error e => rw [h2] at hok; exact absurd hok (by simp)
    | ok vy =>
      rw [h2] at hok
      cases h3 : randint 80 150 (g (4 * i + 2)) with
      | error e => rw [h3] at hok; exact absurd hok (by simp)
      | ok vw =>
        rw [h3] at hok
        cases h4 : randint 80 150 (g (4 * i + 3)) with
        | error e => rw [h4] at hok; exact absurd hok (by simp)
        | ok vh =>
          rw [h4] at hok
          simp only [Except.ok.injEq] at hok
          obtain ⟨hw1, hx1, hx2⟩ := randint_ok_bounds h1
          obtain ⟨hh1, hy1, hy2⟩ := randint_ok_bounds h2
          obtain ⟨-, hw3, hw4⟩ := randint_ok_bounds h3
          obtain ⟨-, hh3, hh4⟩ := randint_ok_bounds h4
          subst hok
          refine ⟨by omega, by omega, hx1, hx2, hy1, hy2, hw3, hw4, hh3, hh4, rfl, rfl⟩

theorem sampleBox_ok_of_large (g : Nat → Nat) {w h : Int} (i : Nat)
    (hw : 200 < w) (hh : 200 < h) : ∃ b, sampleBox g w h i = Except.ok b := by
  unfold sampleBox
  rw [randint_eq_ok _ _ _ (by omega), randint_eq_ok _ _ _ (by omega),
      randint_eq_ok _ _ _ (by omega), randint_eq_ok _ _ _ (by omega)]
  exact ⟨_, rfl⟩

theorem sampleBoxes_ok_of_large (g : Nat → Nat) {w h : Int}
    (hw : 200 < w) (hh : 200 < h) :
    ∀ n, ∃ bs, sampleBoxes g w h n = Except.ok bs := by
  intro n
  induction n with
  | zero => exact ⟨[], rfl⟩
  | succ m ih =>
    obtain ⟨bs, hbs⟩ := ih
    obtain ⟨b, hb⟩ := sampleBox_ok_of_large g m hw hh
    refine ⟨bs ++ [b], ?_⟩
    unfold sampleBoxes
    rw [hbs, hb]

/-- Every successful sampler run yields `n` boxes whose geometry lies in
the coded half-open ranges and whose label/color are the cyclic,
index-determined picks. -/
theorem sampleBoxes_ok_inv {g : Nat → Nat} {w h : Int} {n : Nat}
    {bs : List SampleBox} (hok : sampleBoxes g w h n = Except.ok bs) :
    bs.length = n ∧
    (∀ i b, bs.get? i = some b →
      b.label = labels.getD (i % 5) "" ∧ b.color = colors.getD (i % 5) "") ∧
    ∀ b ∈ bs, 50 ≤ b.x ∧ b.x < w - 150 ∧ 50 ≤ b.y ∧ b.y < h - 150 ∧
      80 ≤ b.width ∧ b.width < 150 ∧ 80 ≤ b.height ∧ b.height < 150 := by
  induction n generalizing bs with
  | zero =>
    have hbs : bs = [] := by
      unfold sampleBoxes at hok
      simpa using hok.symm
    subst hbs
    exact ⟨rfl, by simp, by simp⟩
  | succ m ih =>
    unfold sampleBoxes at hok
    cases hprev : sampleBoxes g w h m with
    | error e => rw [hprev] at hok; exact absurd hok (by simp)
    | ok bs0 =>
      rw [hprev] at hok
      cases hbox : sampleBox g w h m with
      | error e => rw [hbox] at hok; exact absurd hok (by simp)
      | ok b0 =>
        rw [hbox] at hok
        simp only [Except.ok.injEq] at hok
        subst hok
        obtain ⟨hlen, hlab, hgeo⟩ := ih hprev
        obtain ⟨-, -, hx1, hx2, hy1, hy2, hw1, hw2, hh1, hh2, hl, hc⟩ :=
          sampleBox_ok_bounds hbox
        refine ⟨by simp [hlen], ?_, ?_⟩
        · intro i b hib
          by_cases hi : i < bs0.length
          · rw [List.get?_append hi] at hib
            exact hlab i b hib
          · by_cases hieq : i = bs0.length
            · subst hieq
              rw [List.get?_concat_length] at hib
              cases hib
              rw [hlen]
              exact ⟨hl, hc⟩
            · rw [List.get?_eq_none.mpr (by simp; omega)] at hib
              cases hib
        · intro b hb
          rcases List.mem_append.mp hb with hmem | hmem
          · exact hgeo b hmem
          · rw [List.mem_singleton.mp hmem]
            exact ⟨hx1, hx2, hy1, hy2, hw1, hw2, hh1, hh2⟩

theorem sampleBoxes_error_of_small (g : Nat → Nat) {w h : Int}
    (hbad : ¬(200 < w ∧ 200 < h)) :
    ∀ n, ∃ e, sampleBoxes g w h (n + 1) = Except.error e := by
  intro n
  induction n with
  | zero =>
    have hbox : ∃ e, sampleBox g w h 0 = Except.error e := by
      unfold sampleBox
      by_cases hw : 200 < w
      · have hh : ¬200 < h := fun hcon => hbad ⟨hw, hcon⟩
        rw [randint_eq_ok _ _ _ (by omega)]
        have : randint 50 (h - 150) (g 1) = Except.error "low >= high" := by
          unfold randint
          rw [if_neg (by omega)]
        rw [show (4 * 0 + 1 : Nat) = 1 from rfl, this]
        exact ⟨_, rfl⟩
      · have : randint 50 (w - 150) (g (4 * 0)) = Except.error "low >= high" := by
          unfold randint
          rw [if_neg (by omega)]
        rw [this]
        exact ⟨_, rfl⟩
    obtain ⟨e, he⟩ := hbox
    refine ⟨e, ?_⟩
    unfold sampleBoxes
    rw [show sampleBoxes g w h 0 = Except.ok [] from rfl, he]
  | succ m ih =>
    obtain ⟨e, he⟩ := ih
    refine ⟨e, ?_⟩
    unfold sampleBoxes
    rw [he]

/-- Counterexample to C5 as stated: at the positive width 100 (and
height 640) the sampler does not succeed — `np.random.randint(50, -50)`
raises, there being no `max(51, ...)` guard in the code. -/
theorem sampler_fails_on_positive_width :
    create_sample_annotations (fun _ => 0) 1 100 640 =
      Except.error "low >= high" ∧ (0 : Int) < 100 := by
  exact ⟨rfl, by decide⟩

/-- C5 amended: the sampler produces exactly `count` boxes with `x`, `y`
drawn from the half-open range `[50, dimension - 150)` (no `max(51, ·)`
lower clamp) and `width`, `height` from `[80, 150)`; the call succeeds
iff `count = 0` or both dimensions exceed 200 — for smaller positive
dimensions the underlying random-range call raises. -/
theorem sampler_ranges (g : Nat → Nat) (n : Nat) (w h : Int) :
    ((∃ bs, create_sample_annotations g n w h = Except.ok bs) ↔
      (n = 0 ∨ (200 < w ∧ 200 < h))) ∧
    (∀ bs, create_sample_annotations g n w h = Except.ok bs →
      bs.length = n ∧
      ∀ b ∈ bs, 50 ≤ b.x ∧ b.x < w - 150 ∧ 50 ≤ b.y ∧ b.y < h - 150 ∧
        80 ≤ b.width ∧ b.width < 150 ∧ 80 ≤ b.height ∧ b.height < 150) := by
  constructor
  · constructor
    · rintro ⟨bs, hok⟩
      cases n with
      | zero => exact Or.inl rfl
      | succ m =>
        refine Or.inr ?_
        by_contra hbad
        obtain ⟨e, he⟩ := sampleBoxes_error_of_small g hbad m
        rw [create_sample_annotations, he] at hok
        exact absurd hok (by simp)
    · rintro (hn | ⟨hw, hh⟩)
      · subst hn
        exact ⟨[], rfl⟩
      · exact sampleBoxes_ok_of_large g hw hh n
  · intro bs hok
    obtain ⟨hlen, -, hgeo⟩ := sampleBoxes_ok_inv hok
    exact ⟨hlen, hgeo⟩

/-- Witness for C5's amended theorem at `count = 2`, 640 × 640. -/
theorem sampler_ranges_witness :
    ∃ bs, create_sample_annotations (fun _ => 3) 2 640 640 = Except.ok bs ∧
      bs.length = 2 ∧
      ∀ b ∈ bs, 50 ≤ b.x ∧ b.x < 640 - 150 ∧ 50 ≤ b.y ∧ b.y < 640 - 150 ∧
        80 ≤ b.width ∧ b.width < 150 ∧ 80 ≤ b.height ∧ b.height < 150 := by
  obtain ⟨bs, hok⟩ :=
    (sampler_ranges (fun _ => 3) 2 640 640).1.mpr (Or.inr ⟨by decide, by decide⟩)
  obtain ⟨hlen, hgeo⟩ := (sampler_ranges (fun _ => 3) 2 640 640).2 bs hok
  exact ⟨bs, hok, hlen, hgeo⟩

/-- C6: across any two successful sampler runs with the same count, the
i-th box's label and color agree and equal the cyclic picks
`labels[i mod 5]` and `colors[i mod 5]` from the fixed ordered lists,
independently of the randomly drawn geometry. -/
theorem labels_colors_deterministic (g1 g2 : Nat → Nat) (n : Nat)
    (w1 h1 w2 h2 : Int) (bs1 bs2 : List SampleBox)
    (hok1 : create_sample_annotations g1 n w1 h1 = Except.ok bs1)
    (hok2 : create_sample_annotations g2 n w2 h2 = Except.ok bs2) :
    bs1.length = n ∧ bs2.length = n ∧
    ∀ i b1 b2, bs1.get? i = some b1 → bs2.get? i = some b2 →
      b1.label = labels.getD (i % 5) "" ∧ b1.color = colors.getD (i % 5) "" ∧
      b1.label = b2.label ∧ b1.color = b2.color := by
  obtain ⟨hlen1, hlab1, -⟩ := sampleBoxes_ok_inv hok1
  obtain ⟨hlen2, hlab2, -⟩ := sampleBoxes_ok_inv hok2
  refine ⟨hlen1, hlen2, ?_⟩
  intro i b1 b2 h1 h2
  obtain ⟨hl1, hc1⟩ := hlab1 i b1 h1
  obtain ⟨hl2, hc2⟩ := hlab2 i b2 h2
  exact ⟨hl1, hc1, hl1.trans hl2.symm, hc1.trans hc2.symm⟩

/-- Witness for C6: two concrete runs with `count = 7` over different
dimensions and different random streams. -/
theorem labels_colors_deterministic_witness :
    ∃ bs1 bs2,
      create_sample_annotations (fun _ => 0) 7 640 640 = Except.ok bs1 ∧
      create_sample_annotations (fun k => 11 * k + 5) 7 900 700 = Except.ok bs2 ∧
      ∀ i b1 b2, bs1.get? i = some b1 → bs2.get? i = some b2 →
        b1.label = b2.label ∧ b1.label = labels.getD (i % 5) "" := by
  obtain ⟨bs1, h1⟩ := sampleBoxes_ok_of_large (fun _ => 0)
    (show (200 : Int) < 640 by decide) (show (200 : Int) < 640 by decide) 7
  obtain ⟨bs2, h2⟩ := sampleBoxes_ok_of_large (fun k => 11 * k + 5)
    (show (200 : Int) < 900 by decide) (show (200 : Int) < 700 by decide) 7
  obtain ⟨-, -, hmain⟩ := labels_colors_deterministic (fun _ => 0)
    (fun k => 11 * k + 5) 7 640 640 900 700 bs1 bs2 h1 h2
  refine ⟨bs1, bs2, h1, h2, ?_⟩
  intro i b1 b2 hb1 hb2
  obtain ⟨hl, -, heq, -⟩ := hmain i b1 b2 hb1 hb2
  exact ⟨heq, hl⟩

end ImageAgent
